import Mathlib

/-!
# Verification of `validate_distinct_investors.py`

A shallow embedding of the script: JSON/Python values (`PyVal`), Python
truthiness and equality at the comparison sites the script uses, the five
accumulator structures, the per-record aggregation step, the per-file
ingestion step (with `JSONDecodeError` handling), and the final report.

Fallible operations (iterating a non-iterable value, hashing an unhashable
value, sorting incomparable values) are modelled with `Except Unit`; an
`Except.error` corresponds to an uncaught Python exception aborting the run.
-/

namespace VDI

/-- Python values produced by `json.load`: `None`, booleans, integers,
strings, lists, and dicts (JSON object keys are strings).  JSON numbers are
modelled as integers. -/
inductive PyVal : Type
  | none : PyVal
  | bool : Bool → PyVal
  | int : Int → PyVal
  | str : String → PyVal
  | list : List PyVal → PyVal
  | dict : List (String × PyVal) → PyVal

/-- Python truthiness: `None`, `False`, `0`, `""`, `[]`, `{}` are falsy. -/
def truthy : PyVal → Bool
  | .none => false
  | .bool b => b
  | .int n => n != 0
  | .str s => s != ""
  | .list l => !l.isEmpty
  | .dict d => !d.isEmpty

/-- Python hashability: lists and dicts are unhashable (`TypeError` when
added to a set or used as a dict key). -/
def hashable : PyVal → Bool
  | .list _ => false
  | .dict _ => false
  | _ => true

/-- Python `==` on the hashable scalars (`None`, `bool`, `int`, `str`),
including the numeric cross-equality `True == 1`, `False == 0`.  This is
the equality used for set membership and dict keys in the script; container
values never reach an equality site because they are unhashable, and the
only other comparison in the script is against a string (`pyEqStr`). -/
def pyEqH : PyVal → PyVal → Bool
  | .none, .none => true
  | .bool a, .bool b => a == b
  | .bool a, .int n => (if a then (1 : Int) else 0) == n
  | .int n, .bool b => n == (if b then (1 : Int) else 0)
  | .int m, .int n => m == n
  | .str s, .str t => s == t
  | _, _ => false

/-- Python `v == s` for a string literal `s`: only a string with the same
contents compares equal; every other value compares unequal (no error). -/
def pyEqStr (v : PyVal) (s : String) : Bool :=
  match v with
  | .str t => t == s
  | _ => false

/-- Python `dict.get`: the value of the key, else `None`.  Built by `foldl`
so that a later duplicate key overwrites an earlier one, as in a Python
dict built from JSON. -/
def dictGet (fields : List (String × PyVal)) (k : String) : PyVal :=
  fields.foldl (fun acc p => if p.1 = k then p.2 else acc) PyVal.none

/-- Lexicographic comparison of character lists by code point: the order
Python uses for `str` comparison and `sorted` on strings. -/
def lexLe : List Char → List Char → Bool
  | [], _ => true
  | _ :: _, [] => false
  | x :: xs, y :: ys =>
    if x.toNat = y.toNat then lexLe xs ys else decide (x.toNat < y.toNat)

/-- Python `s.endswith(t)`. -/
def strEndsWith (s t : String) : Bool :=
  decide (t.toList.length ≤ s.toList.length) &&
    (s.toList.drop (s.toList.length - t.toList.length) == t.toList)

/-- The five accumulators of the script (field names as in the source).
Python sets are modelled as duplicate-free lists in insertion order; the
two `defaultdict(set)` maps as association lists in key-insertion order. -/
structure AggState : Type where
  names : List PyVal
  ids_or_names : List PyVal
  name_to_ids : List (PyVal × List PyVal)
  id_to_names : List (PyVal × List PyVal)
  no_name_has_id : List PyVal

def initState : AggState :=
  { names := [], ids_or_names := [], name_to_ids := [], id_to_names := [],
    no_name_has_id := [] }

/-- Set membership `x in s` (Python hash-based membership via `==`). -/
def Smem (x : PyVal) (s : List PyVal) : Bool :=
  s.any (fun y => pyEqH x y)

/-- Pure part of `set.add`: when an equal element is already present the
existing element is kept, otherwise the new element is appended. -/
def insertS (s : List PyVal) (x : PyVal) : List PyVal :=
  if Smem x s then s else s ++ [x]

/-- Python set.add: hashes its argument first, so an unhashable value raises. -/
def addSet (s : List PyVal) (x : PyVal) : Except Unit (List PyVal) :=
  if hashable x then .ok (insertS s x) else .error ()

/-- Pure part of `defaultdict(set)` update `m[k].add(v)`: if a key equal to
`k` exists its set grows (the stored key object is kept), else a new entry
is appended. -/
def mapIns (m : List (PyVal × List PyVal)) (k v : PyVal) :
    List (PyVal × List PyVal) :=
  if m.any (fun p => pyEqH k p.1) then
    m.map (fun p => if pyEqH k p.1 then (p.1, insertS p.2 v) else p)
  else m ++ [(k, [v])]

/-- Update `m[k].add(v)` on a `defaultdict(set)`: both the key and the added value
must be hashable. -/
def mapAdd (m : List (PyVal × List PyVal)) (k v : PyVal) :
    Except Unit (List (PyVal × List PyVal)) :=
  if hashable k && hashable v then .ok (mapIns m k v) else .error ()

/-- The body of the script's `for inv in data` loop for one record `inv`:
country extraction and filter, then the set-B, set-A, and diagnostics
updates, in source order.  A non-dict record raises (`.get` on a non-dict),
as does a truthy non-dict `country` value. -/
def processRecord (c : String) (st : AggState) (inv : PyVal) :
    Except Unit AggState :=
  match inv with
  | .dict flds =>
    let countryRaw := dictGet flds "country"
    match (if truthy countryRaw then countryRaw else PyVal.dict []) with
    | .dict cf =>
      if pyEqStr (dictGet cf "title") c then
        let inv_id := dictGet flds "id"
        let name := dictGet flds "name"
        do
          let names1 ← if truthy name then addSet st.names name
                       else .ok st.names
          let uid := if truthy inv_id then inv_id else name
          let ion1 ← if truthy uid then addSet st.ids_or_names uid
                     else .ok st.ids_or_names
          let nti1 ← if truthy name && truthy inv_id then
                       mapAdd st.name_to_ids name inv_id
                     else .ok st.name_to_ids
          let itn1 ← if truthy name && truthy inv_id then
                       mapAdd st.id_to_names inv_id name
                     else .ok st.id_to_names
          let orph1 := if !truthy name && truthy inv_id then
                         st.no_name_has_id ++ [inv_id]
                       else st.no_name_has_id
          .ok { names := names1, ids_or_names := ion1, name_to_ids := nti1,
                id_to_names := itn1, no_name_has_id := orph1 }
      else .ok st
    | _ => .error ()
  | _ => .error ()

/-- Python `for inv in data`: lists yield their elements, strings yield their
one-character substrings, dicts yield their keys (first-insertion order);
other values raise `TypeError`. -/
def iterRecords : PyVal → Except Unit (List PyVal)
  | .list l => .ok l
  | .str s => .ok (s.toList.map (fun ch => PyVal.str (String.mk [ch])))
  | .dict d => .ok (((d.map Prod.fst).eraseDups).map PyVal.str)
  | _ => .error ()

/-- The inner `for inv in data` loop over a parsed file's records. -/
def runRecords (c : String) (st : AggState) (recs : List PyVal) :
    Except Unit AggState :=
  recs.foldlM (processRecord c) st

/-- One directory entry: its filename and the outcome of `json.load`
(`none` models a `JSONDecodeError`). -/
structure FileEntry : Type where
  name : String
  content : Option PyVal

/-- One iteration of the directory loop: non-`.json` names are skipped, a
parse failure is caught and skipped, otherwise the records are processed. -/
def processFile (c : String) (st : AggState) (f : FileEntry) :
    Except Unit AggState :=
  if strEndsWith f.name ".json" then
    match f.content with
    | Option.none => .ok st
    | Option.some v => do
        let recs ← iterRecords v
        runRecords c st recs
  else .ok st

/-- The whole directory scan. -/
def runFiles (c : String) (st : AggState) (fs : List FileEntry) :
    Except Unit AggState :=
  fs.foldlM (processFile c) st

def isStrV : PyVal → Bool
  | .str _ => true
  | _ => false

def isNumV : PyVal → Bool
  | .int _ => true
  | .bool _ => true
  | _ => false

def strKey : PyVal → String
  | .str s => s
  | _ => ""

def numKey : PyVal → Int
  | .int n => n
  | .bool b => if b then 1 else 0
  | _ => 0

def strKeyLe (a b : PyVal) : Prop :=
  lexLe (strKey a).toList (strKey b).toList = true

def numKeyLe (a b : PyVal) : Prop := numKey a ≤ numKey b

instance : DecidableRel strKeyLe :=
  fun a b =>
    inferInstanceAs (Decidable (lexLe (strKey a).toList (strKey b).toList = true))

instance : DecidableRel numKeyLe :=
  fun a b => inferInstanceAs (Decidable (numKey a ≤ numKey b))

instance : IsTotal PyVal strKeyLe :=
  ⟨fun u w => by
    show lexLe (strKey u).toList (strKey w).toList = true ∨
      lexLe (strKey w).toList (strKey u).toList = true
    generalize (strKey u).toList = a
    generalize (strKey w).toList = b
    induction a generalizing b with
    | nil => exact Or.inl rfl
    | cons x xs ih =>
      cases b with
      | nil => exact Or.inr rfl
      | cons y ys =>
        by_cases hxy : x.toNat = y.toNat
        · rcases ih ys with h | h
          · exact Or.inl (by simp [lexLe, hxy, h])
          · exact Or.inr (by simp [lexLe, hxy.symm, h])
        · rcases Nat.lt_or_ge x.toNat y.toNat with h | h
          · exact Or.inl (by simp [lexLe, hxy, h])
          · have h2 : y.toNat < x.toNat := by omega
            have hyx : ¬y.toNat = x.toNat := by omega
            exact Or.inr (by simp [lexLe, hyx, h2])⟩

instance : IsTotal PyVal numKeyLe := ⟨fun a b => le_total (numKey a) (numKey b)⟩

instance : IsTrans PyVal strKeyLe :=
  ⟨fun u w t h1 h2 => by
    show lexLe (strKey u).toList (strKey t).toList = true
    have h1' : lexLe (strKey u).toList (strKey w).toList = true := h1
    have h2' : lexLe (strKey w).toList (strKey t).toList = true := h2
    generalize hga : (strKey u).toList = a at h1'
    generalize hgb : (strKey w).toList = b at h1' h2'
    generalize hgc : (strKey t).toList = cs at h2' ⊢
    clear h1 h2 hga hgb hgc
    induction a generalizing b cs with
    | nil => rfl
    | cons x xs ih =>
      cases b with
      | nil => simp [lexLe] at h1'
      | cons y ys =>
        cases cs with
        | nil => simp [lexLe] at h2'
        | cons z zs =>
          simp only [lexLe] at h1' h2' ⊢
          by_cases hxy : x.toNat = y.toNat
          · rw [if_pos hxy] at h1'
            by_cases hyz : y.toNat = z.toNat
            · rw [if_pos hyz] at h2'
              rw [if_pos (hxy.trans hyz)]
              exact ih ys h1' zs h2'
            · rw [if_neg hyz] at h2'
              have hlt : y.toNat < z.toNat := of_decide_eq_true h2'
              have hne : ¬x.toNat = z.toNat := by omega
              rw [if_neg hne]
              exact decide_eq_true (by omega)
          · rw [if_neg hxy] at h1'
            have hlt1 : x.toNat < y.toNat := of_decide_eq_true h1'
            by_cases hyz : y.toNat = z.toNat
            · have hne : ¬x.toNat = z.toNat := by omega
              rw [if_neg hne]
              exact decide_eq_true (by omega)
            · rw [if_neg hyz] at h2'
              have hlt2 : y.toNat < z.toNat := of_decide_eq_true h2'
              have hne : ¬x.toNat = z.toNat := by omega
              rw [if_neg hne]
              exact decide_eq_true (by omega)⟩

instance : IsTrans PyVal numKeyLe := ⟨fun _ _ _ h1 h2 => le_trans h1 h2⟩

/-- Python `sorted` as applied to the values this script stores in sets
(hashable scalars): a list of strings sorts lexicographically, a list of
numbers (ints and bools) sorts by numeric value; any other mix raises
`TypeError`. -/
def pySortE (l : List PyVal) : Except Unit (List PyVal) :=
  if l.all isStrV then .ok (l.insertionSort strKeyLe)
  else if l.all isNumV then .ok (l.insertionSort numKeyLe)
  else .error ()

/-- Disjunction of the two key orders `pySortE` can sort by: the order in
which every successfully sorted output is arranged. -/
def pyKeyLe (a b : PyVal) : Prop := strKeyLe a b ∨ numKeyLe a b

/-- Python `set(l)`: inserts left to right; an unhashable element raises. -/
def setOfE (l : List PyVal) : Except Unit (List PyVal) :=
  l.foldlM addSet []

/-- What the reporting section prints, as data: the two counts, the entries
of the two diagnostic loops (only keys whose set has more than one element,
each with its `sorted` set, in dict iteration order = key-insertion order),
and the `sorted(set(...))` orphan line when the orphan list is nonempty. -/
structure Report : Type where
  country : String
  countA : Nat
  countB : Nat
  namesMultiIds : List (PyVal × List PyVal)
  idsMultiNames : List (PyVal × List PyVal)
  orphanLine : Option (List PyVal)

def sortPairs (l : List (PyVal × List PyVal)) :
    Except Unit (List (PyVal × List PyVal)) :=
  l.mapM (fun p => (pySortE p.2).map (fun s => (p.1, s)))

def buildReport (c : String) (st : AggState) : Except Unit Report := do
  let nmi ← sortPairs (st.name_to_ids.filter (fun p => 1 < p.2.length))
  let imn ← sortPairs (st.id_to_names.filter (fun p => 1 < p.2.length))
  let orph ← if st.no_name_has_id.isEmpty then pure Option.none
    else do
      let s ← setOfE st.no_name_has_id
      let srt ← pySortE s
      pure (Option.some srt)
  pure { country := c, countA := st.ids_or_names.length,
         countB := st.names.length, namesMultiIds := nmi,
         idsMultiNames := imn, orphanLine := orph }

/-- Overall outcome of one invocation. -/
inductive ProgResult : Type
  | usage : ProgResult
  | crashed : ProgResult
  | report : Report → ProgResult

def exitCode : ProgResult → Nat
  | .usage => 1
  | .crashed => 1
  | .report _ => 0

/-- The script end to end: `sys.argv` check (`argv` includes the program
name at position 0), then the directory scan over the given listing, then
the report.  `.usage` models the usage message plus `sys.exit(1)`;
`.crashed` models an uncaught exception. -/
def progMain (argv : List String) (dir : List FileEntry) : ProgResult :=
  if argv.length < 2 then ProgResult.usage
  else
    match runFiles (argv.getD 1 "") initState dir with
    | .error _ => ProgResult.crashed
    | .ok st =>
      match buildReport (argv.getD 1 "") st with
      | .error _ => ProgResult.crashed
      | .ok r => ProgResult.report r

/-- Membership of a key/value pairing in one of the diagnostic maps, up to
Python equality. -/
def Mmem (k v : PyVal) (m : List (PyVal × List PyVal)) : Bool :=
  m.any (fun p => pyEqH k p.1 && Smem v p.2)

/-- The keys of the printed name-diagnostic lines, in print order. -/
def reportKeys : ProgResult → List PyVal
  | .report r => r.namesMultiIds.map Prod.fst
  | _ => []

/-! ## Concrete inputs used in the scenario and counterexample theorems -/

def vnTitle : PyVal := PyVal.dict [("title", PyVal.str "Vietnam")]

def argv0 : String := "validate_distinct_investors.py"

/-- The four-record Vietnam scenario file from the specification. -/
def scenarioFile : FileEntry :=
  { name := "investors.json"
    content := Option.some (PyVal.list [
      PyVal.dict [("id", PyVal.str "1"), ("name", PyVal.str "Alice"),
        ("country", vnTitle)],
      PyVal.dict [("id", PyVal.str "2"), ("name", PyVal.str "Alice"),
        ("country", vnTitle)],
      PyVal.dict [("name", PyVal.str "Bob"), ("country", vnTitle)],
      PyVal.dict [("id", PyVal.str "3"), ("country", vnTitle)]]) }

/-- A `.json` file whose top-level parsed value is the number `0`
(syntactically valid JSON that is not an array). -/
def numberFile : FileEntry :=
  { name := "broken.json", content := Option.some (PyVal.int 0) }

/-- A `.json` file with one Vietnam record named Alice with id `"1"`. -/
def aliceFile : FileEntry :=
  { name := "alice.json"
    content := Option.some (PyVal.list [
      PyVal.dict [("id", PyVal.str "1"), ("name", PyVal.str "Alice"),
        ("country", vnTitle)]]) }

/-- A `.json` file whose contents fail to parse (`JSONDecodeError`). -/
def malformedFile : FileEntry :=
  { name := "garbage.json", content := Option.none }

/-- Two Vietnam records with distinct names sharing the id `"x"`. -/
def sharedIdFile : FileEntry :=
  { name := "shared.json"
    content := Option.some (PyVal.list [
      PyVal.dict [("id", PyVal.str "x"), ("name", PyVal.str "Alice"),
        ("country", vnTitle)],
      PyVal.dict [("id", PyVal.str "x"), ("name", PyVal.str "Bob"),
        ("country", vnTitle)]]) }

/-- Two Vietnam records named Bob with ids `"1"` and `"2"`. -/
def bobMultiFile : FileEntry :=
  { name := "bob.json"
    content := Option.some (PyVal.list [
      PyVal.dict [("id", PyVal.str "1"), ("name", PyVal.str "Bob"),
        ("country", vnTitle)],
      PyVal.dict [("id", PyVal.str "2"), ("name", PyVal.str "Bob"),
        ("country", vnTitle)]]) }

/-- Two Vietnam records named Alice with ids `"3"` and `"4"`. -/
def aliceMultiFile : FileEntry :=
  { name := "alicemulti.json"
    content := Option.some (PyVal.list [
      PyVal.dict [("id", PyVal.str "3"), ("name", PyVal.str "Alice"),
        ("country", vnTitle)],
      PyVal.dict [("id", PyVal.str "4"), ("name", PyVal.str "Alice"),
        ("country", vnTitle)]]) }

/-- A Vietnam record whose `id` is present but equals `0` and whose `name`
is `"Alice"`. -/
def zeroIdRec : PyVal :=
  PyVal.dict [("id", PyVal.int 0), ("name", PyVal.str "Alice"),
    ("country", vnTitle)]

/-- A Vietnam record with a name and no id field. -/
def bobOnlyRec : PyVal :=
  PyVal.dict [("name", PyVal.str "Bob"), ("country", vnTitle)]

/-- The state after processing `bobOnlyRec` alone. -/
def c2WitState : AggState :=
  { names := [PyVal.str "Bob"], ids_or_names := [PyVal.str "Bob"],
    name_to_ids := [], id_to_names := [], no_name_has_id := [] }

/-- A state with one multi-id name entry and a duplicated orphan list. -/
def c6St : AggState :=
  { names := [], ids_or_names := [],
    name_to_ids := [(PyVal.str "A", [PyVal.str "2", PyVal.str "1"])],
    id_to_names := [],
    no_name_has_id := [PyVal.str "3", PyVal.str "3", PyVal.str "1"] }

/-- The report printed from `c6St`. -/
def c6Rep : Report :=
  { country := "X", countA := 0, countB := 0,
    namesMultiIds := [(PyVal.str "A", [PyVal.str "1", PyVal.str "2"])],
    idsMultiNames := [],
    orphanLine := Option.some [PyVal.str "1", PyVal.str "3"] }

/-- The state after scanning `[bobMultiFile, aliceMultiFile]`. -/
def c4St1 : AggState :=
  { names := [PyVal.str "Bob", PyVal.str "Alice"]
    ids_or_names := [PyVal.str "1", PyVal.str "2", PyVal.str "3", PyVal.str "4"]
    name_to_ids := [(PyVal.str "Bob", [PyVal.str "1", PyVal.str "2"]),
      (PyVal.str "Alice", [PyVal.str "3", PyVal.str "4"])]
    id_to_names := [(PyVal.str "1", [PyVal.str "Bob"]),
      (PyVal.str "2", [PyVal.str "Bob"]),
      (PyVal.str "3", [PyVal.str "Alice"]),
      (PyVal.str "4", [PyVal.str "Alice"])]
    no_name_has_id := [] }

/-- The state after scanning `[aliceMultiFile, bobMultiFile]`. -/
def c4St2 : AggState :=
  { names := [PyVal.str "Alice", PyVal.str "Bob"]
    ids_or_names := [PyVal.str "3", PyVal.str "4", PyVal.str "1", PyVal.str "2"]
    name_to_ids := [(PyVal.str "Alice", [PyVal.str "3", PyVal.str "4"]),
      (PyVal.str "Bob", [PyVal.str "1", PyVal.str "2"])]
    id_to_names := [(PyVal.str "3", [PyVal.str "Alice"]),
      (PyVal.str "4", [PyVal.str "Alice"]),
      (PyVal.str "1", [PyVal.str "Bob"]),
      (PyVal.str "2", [PyVal.str "Bob"])]
    no_name_has_id := [] }

/-! ## Per-record analysis

For the order-independence and cardinality arguments it is convenient to
describe the effect of one record as five independent "contributions", and
to characterise exactly when a record makes `processRecord` raise.  The
lemma `processRecord_eq` ties this description back to `processRecord`. -/

/-- The field `inv.get("id")` of a record (a non-dict record never reaches
the field reads). -/
def idOf : PyVal → PyVal
  | .dict flds => dictGet flds "id"
  | _ => PyVal.none

/-- The field `inv.get("name")` of a record. -/
def nameOf : PyVal → PyVal
  | .dict flds => dictGet flds "name"
  | _ => PyVal.none

/-- The script's `unique_id = inv_id or name`. -/
def uidOf (inv : PyVal) : PyVal :=
  if truthy (idOf inv) then idOf inv else nameOf inv

/-- Whether a record passes the country filter: it is a dict whose
`country` value (or `{}` when falsy) is a dict whose `title` equals the
target country string. -/
def matchesC (c : String) : PyVal → Bool
  | .dict flds =>
    (match (if truthy (dictGet flds "country") then dictGet flds "country"
            else PyVal.dict []) with
     | .dict cf => pyEqStr (dictGet cf "title") c
     | _ => false)
  | _ => false

/-- Contribution of a record to set B (`names`). -/
def bContrib (c : String) (inv : PyVal) : Option PyVal :=
  if matchesC c inv && truthy (nameOf inv) then some (nameOf inv) else none

/-- Contribution of a record to set A (`ids_or_names`). -/
def aContrib (c : String) (inv : PyVal) : Option PyVal :=
  if matchesC c inv && truthy (uidOf inv) then some (uidOf inv) else none

/-- Contribution of a record to `name_to_ids`. -/
def niContrib (c : String) (inv : PyVal) : Option (PyVal × PyVal) :=
  if matchesC c inv && truthy (nameOf inv) && truthy (idOf inv) then
    some (nameOf inv, idOf inv)
  else none

/-- Contribution of a record to `id_to_names`. -/
def inContrib (c : String) (inv : PyVal) : Option (PyVal × PyVal) :=
  if matchesC c inv && truthy (nameOf inv) && truthy (idOf inv) then
    some (idOf inv, nameOf inv)
  else none

/-- Contribution of a record to the orphan list `no_name_has_id`. -/
def oContrib (c : String) (inv : PyVal) : Option PyVal :=
  if matchesC c inv && !truthy (nameOf inv) && truthy (idOf inv) then
    some (idOf inv)
  else none

/-- Exactly when `processRecord` raises on a record: the record is not a
dict, or its truthy `country` value is not a dict, or (when the country
matches) some value reaching a set or dict-key position is unhashable. -/
def recordBad (c : String) : PyVal → Bool
  | .dict flds =>
    (match (if truthy (dictGet flds "country") then dictGet flds "country"
            else PyVal.dict []) with
     | .dict cf =>
       if pyEqStr (dictGet cf "title") c then
         (truthy (dictGet flds "name") && !hashable (dictGet flds "name")) ||
         (truthy (if truthy (dictGet flds "id") then dictGet flds "id"
                  else dictGet flds "name") &&
          !hashable (if truthy (dictGet flds "id") then dictGet flds "id"
                     else dictGet flds "name")) ||
         (truthy (dictGet flds "name") && truthy (dictGet flds "id") &&
          (!hashable (dictGet flds "name") || !hashable (dictGet flds "id")))
       else false
     | _ => true)
  | _ => true

def setUpd (s : List PyVal) : Option PyVal → List PyVal
  | some v => insertS s v
  | none => s

def mapUpd (m : List (PyVal × List PyVal)) :
    Option (PyVal × PyVal) → List (PyVal × List PyVal)
  | some kv => mapIns m kv.1 kv.2
  | none => m

def listUpd (l : List PyVal) : Option PyVal → List PyVal
  | some v => l ++ [v]
  | none => l

/-- The effect of one non-raising record, stated componentwise. -/
def pureStep (c : String) (st : AggState) (inv : PyVal) : AggState :=
  { names := setUpd st.names (bContrib c inv)
    ids_or_names := setUpd st.ids_or_names (aContrib c inv)
    name_to_ids := mapUpd st.name_to_ids (niContrib c inv)
    id_to_names := mapUpd st.id_to_names (inContrib c inv)
    no_name_has_id := listUpd st.no_name_has_id (oContrib c inv) }

/-- The records a file actually feeds into the aggregation loop (empty for
skipped or raising files; which value a raising file yields is irrelevant
because the run aborts). -/
def fileRecs (f : FileEntry) : List PyVal :=
  if strEndsWith f.name ".json" then
    match f.content with
    | Option.none => []
    | Option.some v =>
      match iterRecords v with
      | .ok recs => recs
      | .error _ => []
  else []

/-- Exactly when a file makes the scan raise: it has the `.json` suffix and
parses to a non-iterable value, or to an iterable containing a bad record.
A `JSONDecodeError` (`content = none`) never raises. -/
def fileBad (c : String) (f : FileEntry) : Bool :=
  strEndsWith f.name ".json" &&
    (match f.content with
     | Option.none => false
     | Option.some v =>
       match iterRecords v with
       | .ok recs => recs.any (recordBad c)
       | .error _ => true)

/-- No two elements of the list are Python-equal. -/
def pyNd (l : List PyVal) : Prop :=
  l.Pairwise (fun a b => pyEqH a b = false)

/-- All elements are hashable. -/
def allH (l : List PyVal) : Prop := ∀ x ∈ l, hashable x = true

/-- The step `processRecord` raises exactly on `recordBad` records and otherwise
performs `pureStep`. -/
theorem processRecord_eq (c : String) (st : AggState) (inv : PyVal) :
    processRecord c st inv =
      if recordBad c inv then .error () else .ok (pureStep c st inv) := by
  cases inv with
  | dict flds =>
    simp only [processRecord, recordBad, pureStep, bContrib, aContrib,
      niContrib, inContrib, oContrib, matchesC, idOf, nameOf, uidOf]
    cases hcv : (if truthy (dictGet flds "country") then dictGet flds "country"
                 else PyVal.dict []) with
    | dict cf =>
      by_cases hc : pyEqStr (dictGet cf "title") c = true
      · simp only [hc, if_true]
        by_cases hn : truthy (dictGet flds "name") = true <;>
        by_cases hi : truthy (dictGet flds "id") = true <;>
        by_cases hhn : hashable (dictGet flds "name") = true <;>
        by_cases hhi : hashable (dictGet flds "id") = true <;>
          simp_all [addSet, mapAdd, setUpd, mapUpd, listUpd, insertS,
            Except.bind, bind] <;>
          cases st <;> simp_all
      · cases st <;> simp_all [setUpd, mapUpd, listUpd]
    | none => simp_all
    | bool b => simp_all
    | int n => simp_all
    | str s => simp_all
    | list l => simp_all
  | none => rfl
  | bool b => rfl
  | int n => rfl
  | str s => rfl
  | list l => rfl

theorem runRecords_eq (c : String) (st : AggState) (recs : List PyVal) :
    runRecords c st recs =
      if recs.any (recordBad c) then .error ()
      else .ok (recs.foldl (pureStep c) st) := by
  induction recs generalizing st with
  | nil => rfl
  | cons r rs ih =>
    simp only [runRecords, List.foldlM_cons] at ih ⊢
    rw [processRecord_eq]
    by_cases hb : recordBad c r = true
    · rw [if_pos hb, if_pos (by simp [hb] : (r :: rs).any (recordBad c) = true)]
      rfl
    · rw [if_neg hb]
      show List.foldlM (processRecord c) (pureStep c st r) rs = _
      rw [ih]
      have hany : (r :: rs).any (recordBad c) = rs.any (recordBad c) := by
        simp [hb]
      rw [hany, List.foldl_cons]

theorem processFile_eq (c : String) (st : AggState) (f : FileEntry) :
    processFile c st f =
      if fileBad c f then .error ()
      else .ok ((fileRecs f).foldl (pureStep c) st) := by
  simp only [processFile, fileBad, fileRecs]
  by_cases hj : strEndsWith f.name ".json" = true
  · simp only [hj, Bool.true_and, if_true]
    cases f.content with
    | none => rfl
    | some v =>
      dsimp only
      cases hit : iterRecords v with
      | error e =>
        cases e
        rfl
      | ok recs =>
        show runRecords c st recs = _
        rw [runRecords_eq]
  · simp only [hj, Bool.false_and, if_false]
    rfl

theorem runFiles_eq (c : String) (st : AggState) (fs : List FileEntry) :
    runFiles c st fs =
      if fs.any (fileBad c) then .error ()
      else .ok ((fs.flatMap fileRecs).foldl (pureStep c) st) := by
  induction fs generalizing st with
  | nil => rfl
  | cons f fs ih =>
    simp only [runFiles, List.foldlM_cons] at ih ⊢
    rw [processFile_eq]
    by_cases hb : fileBad c f = true
    · rw [if_pos hb, if_pos (by simp [hb] : (f :: fs).any (fileBad c) = true)]
      rfl
    · rw [if_neg hb]
      show List.foldlM (processFile c) ((fileRecs f).foldl (pureStep c) st) fs = _
      rw [ih]
      have hany : (f :: fs).any (fileBad c) = fs.any (fileBad c) := by
        simp [hb]
      rw [hany, List.flatMap_cons, List.foldl_append]

theorem foldl_pureStep_names (c : String) (recs : List PyVal) (st : AggState) :
    (recs.foldl (pureStep c) st).names =
      (recs.filterMap (bContrib c)).foldl insertS st.names := by
  induction recs generalizing st with
  | nil => rfl
  | cons r rs ih =>
    simp only [List.foldl_cons, List.filterMap_cons]
    rw [ih]
    cases hb : bContrib c r with
    | none => simp [pureStep, setUpd, hb]
    | some v => simp [pureStep, setUpd, hb]

theorem foldl_pureStep_ion (c : String) (recs : List PyVal) (st : AggState) :
    (recs.foldl (pureStep c) st).ids_or_names =
      (recs.filterMap (aContrib c)).foldl insertS st.ids_or_names := by
  induction recs generalizing st with
  | nil => rfl
  | cons r rs ih =>
    simp only [List.foldl_cons, List.filterMap_cons]
    rw [ih]
    cases hb : aContrib c r with
    | none => simp [pureStep, setUpd, hb]
    | some v => simp [pureStep, setUpd, hb]

theorem foldl_pureStep_orph (c : String) (recs : List PyVal) (st : AggState) :
    (recs.foldl (pureStep c) st).no_name_has_id =
      st.no_name_has_id ++ recs.filterMap (oContrib c) := by
  induction recs generalizing st with
  | nil => simp
  | cons r rs ih =>
    simp only [List.foldl_cons, List.filterMap_cons]
    rw [ih]
    cases hb : oContrib c r with
    | none => simp [pureStep, listUpd, hb]
    | some v => simp [pureStep, listUpd, hb]

theorem foldl_pureStep_nti (c : String) (recs : List PyVal) (st : AggState) :
    (recs.foldl (pureStep c) st).name_to_ids =
      (recs.filterMap (niContrib c)).foldl
        (fun m kv => mapIns m kv.1 kv.2) st.name_to_ids := by
  induction recs generalizing st with
  | nil => rfl
  | cons r rs ih =>
    simp only [List.foldl_cons, List.filterMap_cons]
    rw [ih]
    cases hb : niContrib c r with
    | none => simp [pureStep, mapUpd, hb]
    | some kv => simp [pureStep, mapUpd, hb]

theorem foldl_pureStep_itn (c : String) (recs : List PyVal) (st : AggState) :
    (recs.foldl (pureStep c) st).id_to_names =
      (recs.filterMap (inContrib c)).foldl
        (fun m kv => mapIns m kv.1 kv.2) st.id_to_names := by
  induction recs generalizing st with
  | nil => rfl
  | cons r rs ih =>
    simp only [List.foldl_cons, List.filterMap_cons]
    rw [ih]
    cases hb : inContrib c r with
    | none => simp [pureStep, mapUpd, hb]
    | some kv => simp [pureStep, mapUpd, hb]

/-! ## Python equality is an equivalence on hashable values -/

theorem pyEqH_refl {x : PyVal} (hx : hashable x = true) : pyEqH x x = true := by
  cases x <;> simp_all [pyEqH, hashable]

theorem pyEqH_symm {x y : PyVal} (h : pyEqH x y = true) : pyEqH y x = true := by
  cases x <;> cases y <;>
    simp only [pyEqH, beq_iff_eq] at h ⊢ <;>
    (try split_ifs at h ⊢) <;> simp_all

theorem pyEqH_trans {x y z : PyVal} (h1 : pyEqH x y = true)
    (h2 : pyEqH y z = true) : pyEqH x z = true := by
  cases x <;> cases y <;> cases z <;>
    simp only [pyEqH, beq_iff_eq] at h1 h2 ⊢ <;>
    (try split_ifs at h1 h2 ⊢) <;> simp_all

/-! ## Sets as duplicate-free lists -/

theorem smem_iff {x : PyVal} {s : List PyVal} :
    Smem x s = true ↔ ∃ y ∈ s, pyEqH x y = true := by
  simp [Smem]

theorem smem_insertS {x v : PyVal} {s : List PyVal} :
    Smem x (insertS s v) = true ↔ (Smem x s = true ∨ pyEqH x v = true) := by
  unfold insertS
  by_cases h : Smem v s = true
  · rw [if_pos h]
    constructor
    · exact fun hx => Or.inl hx
    · rintro (hx | hxv)
      · exact hx
      · rcases smem_iff.mp h with ⟨y, hy, hvy⟩
        exact smem_iff.mpr ⟨y, hy, pyEqH_trans hxv hvy⟩
  · rw [if_neg h]
    simp [Smem, List.any_append]

theorem smem_foldl_insertS {x : PyVal} {vs : List PyVal} {s : List PyVal} :
    Smem x (vs.foldl insertS s) = true ↔
      (Smem x s = true ∨ ∃ v ∈ vs, pyEqH x v = true) := by
  induction vs generalizing s with
  | nil => simp
  | cons v vs ih =>
    simp only [List.foldl_cons, ih, smem_insertS, List.mem_cons]
    constructor
    · rintro ((hs | hv) | ⟨w, hw, hxw⟩)
      · exact Or.inl hs
      · exact Or.inr ⟨v, Or.inl rfl, hv⟩
      · exact Or.inr ⟨w, Or.inr hw, hxw⟩
    · rintro (hs | ⟨w, (rfl | hw), hxw⟩)
      · exact Or.inl (Or.inl hs)
      · exact Or.inl (Or.inr hxw)
      · exact Or.inr ⟨w, hw, hxw⟩

theorem pyNd_insertS {s : List PyVal} {v : PyVal} (h : pyNd s) :
    pyNd (insertS s v) := by
  unfold insertS
  by_cases hm : Smem v s = true
  · rw [if_pos hm]; exact h
  · rw [if_neg hm]
    unfold pyNd
    rw [List.pairwise_append]
    refine ⟨h, List.pairwise_singleton _ _, ?_⟩
    intro a ha b hb
    simp only [List.mem_singleton] at hb
    subst hb
    by_contra hav
    apply hm
    exact smem_iff.mpr ⟨a, ha, pyEqH_symm (by simpa using hav)⟩

theorem allH_insertS {s : List PyVal} {v : PyVal} (h : allH s)
    (hv : hashable v = true) : allH (insertS s v) := by
  unfold insertS
  by_cases hm : Smem v s = true
  · rw [if_pos hm]; exact h
  · rw [if_neg hm]
    intro x hx
    rcases List.mem_append.mp hx with hx | hx
    · exact h x hx
    · simp only [List.mem_singleton] at hx
      subst hx
      exact hv

theorem pyNd_foldl_insertS {vs : List PyVal} {s : List PyVal} (h : pyNd s) :
    pyNd (vs.foldl insertS s) := by
  induction vs generalizing s with
  | nil => exact h
  | cons v vs ih => exact ih (pyNd_insertS h)

theorem allH_foldl_insertS {vs : List PyVal} {s : List PyVal} (h : allH s)
    (hvs : ∀ v ∈ vs, hashable v = true) : allH (vs.foldl insertS s) := by
  induction vs generalizing s with
  | nil => exact h
  | cons v vs ih =>
    exact ih (allH_insertS h (hvs v (List.mem_cons_self v vs)))
      (fun w hw => hvs w (List.mem_cons_of_mem v hw))

/-- Two duplicate-free hashable lists with the same Python-membership have
the first no longer than the second. -/
theorem length_le_of_smem_sub {l₁ l₂ : List PyVal} (h₁ : pyNd l₁)
    (hh : allH l₁) (h₂ : pyNd l₂)
    (hsub : ∀ x, Smem x l₁ = true → Smem x l₂ = true) :
    l₁.length ≤ l₂.length := by
  induction l₁ generalizing l₂ with
  | nil => exact Nat.zero_le _
  | cons a t ih =>
    have ha : hashable a = true := hh a (List.mem_cons_self a t)
    have hmem : Smem a l₂ = true :=
      hsub a (smem_iff.mpr ⟨a, List.mem_cons_self a t, pyEqH_refl ha⟩)
    rcases smem_iff.mp hmem with ⟨b, hb, hab⟩
    rcases List.append_of_mem hb with ⟨u, w, rfl⟩
    rcases List.pairwise_cons.mp h₁ with ⟨hrel, h₁t⟩
    have hht : allH t := fun x hx => hh x (List.mem_cons_of_mem a hx)
    have h₂' : pyNd (u ++ w) := by
      unfold pyNd at h₂ ⊢
      exact h₂.sublist ((List.sublist_cons_self b w).append_left u)
    have hsub' : ∀ x, Smem x t = true → Smem x (u ++ w) = true := by
      intro x hx
      have hx2 : Smem x (u ++ b :: w) = true := by
        apply hsub
        rcases smem_iff.mp hx with ⟨c, hc, hxc⟩
        exact smem_iff.mpr ⟨c, List.mem_cons_of_mem a hc, hxc⟩
      rcases smem_iff.mp hx2 with ⟨d, hd, hxd⟩
      rcases List.mem_append.mp hd with hdu | hdw
      · exact smem_iff.mpr ⟨d, List.mem_append_left w hdu, hxd⟩
      · rcases List.mem_cons.mp hdw with rfl | hdw
        · exfalso
          have hxa : pyEqH x a = true :=
            pyEqH_trans hxd (pyEqH_symm hab)
          rcases smem_iff.mp hx with ⟨e, he, hxe⟩
          have hae : pyEqH a e = true :=
            pyEqH_trans (pyEqH_symm hxa) hxe
          have := hrel e he
          simp [this] at hae
        · exact smem_iff.mpr ⟨d, List.mem_append_right u hdw, hxd⟩
    have hlen := ih h₁t hht h₂' hsub'
    simp only [List.length_cons, List.length_append] at hlen ⊢
    omega

/-! ## Skipping lemmas for unparsable files -/

theorem processFile_none (c : String) (st : AggState) (f : FileEntry)
    (h : f.content = Option.none) : processFile c st f = .ok st := by
  unfold processFile
  rw [h]
  split
  · rfl
  · rfl

theorem runFiles_skip_none (c : String) (st : AggState)
    (pre post : List FileEntry) (f : FileEntry)
    (h : f.content = Option.none) :
    runFiles c st (pre ++ f :: post) = runFiles c st (pre ++ post) := by
  unfold runFiles
  rw [List.foldlM_append, List.foldlM_append]
  cases hpre : List.foldlM (processFile c) st pre with
  | error e => rfl
  | ok st1 =>
    show List.foldlM (processFile c) st1 (f :: post) =
      List.foldlM (processFile c) st1 post
    rw [List.foldlM_cons, processFile_none c st1 f h]
    rfl

theorem recs_good_of_fileBad_false {c : String} {f : FileEntry}
    (h : fileBad c f = false) : ∀ r ∈ fileRecs f, recordBad c r = false := by
  intro r hr
  unfold fileBad at h
  unfold fileRecs at hr
  by_cases hj : strEndsWith f.name ".json" = true
  · rw [if_pos hj] at hr
    simp only [hj, Bool.true_and] at h
    cases hf : f.content with
    | none =>
      rw [hf] at hr
      simp at hr
    | some v =>
      rw [hf] at hr h
      dsimp only at h hr
      cases hit : iterRecords v with
      | error e =>
        rw [hit] at hr
        simp at hr
      | ok recs =>
        rw [hit] at hr h
        simp only [List.any_eq_false] at h
        simpa using h r hr
  · rw [if_neg hj] at hr
    simp at hr

/-! ## Hashability of contributions from non-raising records -/

theorem contribs_hashable {c : String} {inv : PyVal}
    (h : recordBad c inv = false) :
    (∀ v, aContrib c inv = Option.some v → hashable v = true) ∧
    (∀ n, bContrib c inv = Option.some n → hashable n = true) ∧
    (∀ kv, niContrib c inv = Option.some kv →
      hashable kv.1 = true ∧ hashable kv.2 = true) ∧
    (∀ kv, inContrib c inv = Option.some kv →
      hashable kv.1 = true ∧ hashable kv.2 = true) := by
  cases inv with
  | dict flds =>
    unfold recordBad at h
    unfold aContrib bContrib niContrib inContrib matchesC uidOf idOf nameOf
    dsimp only at h ⊢
    cases hcv : (if truthy (dictGet flds "country") then dictGet flds "country"
                 else PyVal.dict []) with
    | dict cf =>
      rw [hcv] at h
      dsimp only at h ⊢
      by_cases ht : pyEqStr (dictGet cf "title") c = true
      · rw [if_pos ht] at h
        simp only [Bool.or_eq_false_iff, Bool.and_eq_false_iff,
          Bool.not_eq_false'] at h
        simp only [ht, Bool.true_and]
        by_cases hn : truthy (dictGet flds "name") = true <;>
          by_cases hi : truthy (dictGet flds "id") = true <;>
          simp_all
      · simp [ht]
    | none => rw [hcv] at h; simp at h
    | bool b => rw [hcv] at h; simp at h
    | int n => rw [hcv] at h; simp at h
    | str s => rw [hcv] at h; simp at h
    | list l => rw [hcv] at h; simp at h
  | none => simp [recordBad] at h
  | bool b => simp [recordBad] at h
  | int n => simp [recordBad] at h
  | str s => simp [recordBad] at h
  | list l => simp [recordBad] at h

/-- When no record pairs a name with an id, every set-B contribution is
also a set-A contribution. -/
theorem bContrib_sub_aContrib {c : String} {inv : PyVal} {n : PyVal}
    (hni : niContrib c inv = Option.none)
    (hb : bContrib c inv = Option.some n) : aContrib c inv = Option.some n := by
  unfold bContrib at hb
  unfold niContrib at hni
  unfold aContrib uidOf
  by_cases hm : matchesC c inv = true
  · simp only [hm, Bool.true_and] at hb hni ⊢
    by_cases hn : truthy (nameOf inv) = true
    · simp only [hn, if_pos, Option.some.injEq] at hb
      by_cases hi : truthy (idOf inv) = true
      · simp [hn, hi] at hni
      · subst hb
        simp [hn, hi]
    · simp [hn] at hb
  · simp [hm] at hb

/-! ## Claim theorems -/

/-- C3: for the fixed scenario of four Vietnam records
`[{id:"1",name:"Alice"}, {id:"2",name:"Alice"}, {name:"Bob"}, {id:"3"}]`
with target country `"Vietnam"`, the program computes set A of size 4,
set B of size 2, the diagnostic `Alice -> ["1","2"]`, and orphan list
`["3"]`. -/
theorem c3_fixed_vietnam_records :
    progMain [argv0, "Vietnam"] [scenarioFile] =
      ProgResult.report
        { country := "Vietnam", countA := 4, countB := 2,
          namesMultiIds := [(PyVal.str "Alice", [PyVal.str "1", PyVal.str "2"])],
          idsMultiNames := [],
          orphanLine := Option.some [PyVal.str "3"] } := by
  rfl

/-- C9: when the required country-name argument is absent
(`len(sys.argv) < 2`), the program reports usage and exits with status 1,
independently of the directory contents (no enumeration or record
processing affects the outcome). -/
theorem c9_usage_error (argv : List String) (dir : List FileEntry)
    (h : argv.length < 2) :
    progMain argv dir = ProgResult.usage ∧
      exitCode (progMain argv dir) = 1 := by
  unfold progMain
  rw [if_pos h]
  exact ⟨rfl, rfl⟩

/-- Witness for `c9_usage_error` at `argv = [argv0]`. -/
theorem c9_usage_error_witness :
    [argv0].length < 2 ∧
      (progMain [argv0] [scenarioFile] = ProgResult.usage ∧
       exitCode (progMain [argv0] [scenarioFile]) = 1) :=
  ⟨by decide, c9_usage_error [argv0] [scenarioFile] (by decide)⟩

/-- C8: country matching is case-sensitive exact string equality: a record
whose `country.title` is `"vietnam"` is excluded from all aggregates when
the target country is `"Vietnam"` (the state is returned unchanged). -/
theorem c8_case_sensitive (st : AggState) (flds cf : List (String × PyVal))
    (hcountry : dictGet flds "country" = PyVal.dict cf)
    (htitle : dictGet cf "title" = PyVal.str "vietnam") :
    processRecord "Vietnam" st (PyVal.dict flds) = Except.ok st := by
  unfold processRecord
  dsimp only
  rw [hcountry]
  by_cases hcf : truthy (PyVal.dict cf) = true
  · rw [if_pos hcf]
    dsimp only
    rw [htitle]
    rw [if_neg (by decide : ¬pyEqStr (PyVal.str "vietnam") "Vietnam" = true)]
  · exfalso
    have hnil : cf = [] := by
      cases cf with
      | nil => rfl
      | cons p ps => simp [truthy] at hcf
    subst hnil
    simp [dictGet] at htitle

/-- Witness for `c8_case_sensitive` on a concrete lowercase record. -/
theorem c8_case_sensitive_witness :
    dictGet [("name", PyVal.str "Ann"),
        ("country", PyVal.dict [("title", PyVal.str "vietnam")])] "country" =
      PyVal.dict [("title", PyVal.str "vietnam")] ∧
    dictGet [("title", PyVal.str "vietnam")] "title" = PyVal.str "vietnam" ∧
    processRecord "Vietnam" initState
        (PyVal.dict [("name", PyVal.str "Ann"),
          ("country", PyVal.dict [("title", PyVal.str "vietnam")])]) =
      Except.ok initState :=
  ⟨rfl, rfl, c8_case_sensitive initState _ _ rfl rfl⟩

/-- C7: adding one file with syntactically invalid JSON content (and a
`.json` name) anywhere in the directory leaves the whole program outcome —
all reported counts and listings — identical to the run without it. -/
theorem c7_malformed_file_invariance (argv : List String)
    (pre post : List FileEntry) (f : FileEntry)
    (hname : strEndsWith f.name ".json" = true)
    (hcontent : f.content = Option.none) :
    progMain argv (pre ++ f :: post) = progMain argv (pre ++ post) := by
  unfold progMain
  by_cases h : argv.length < 2
  · rw [if_pos h, if_pos h]
  · rw [if_neg h, if_neg h, runFiles_skip_none _ _ _ _ _ hcontent]

/-- Witness for `c7_malformed_file_invariance` with a concrete directory. -/
theorem c7_malformed_file_invariance_witness :
    strEndsWith malformedFile.name ".json" = true ∧
    malformedFile.content = Option.none ∧
    progMain [argv0, "Vietnam"] ([aliceFile] ++ malformedFile :: []) =
      progMain [argv0, "Vietnam"] ([aliceFile] ++ []) :=
  ⟨rfl, rfl,
    c7_malformed_file_invariance [argv0, "Vietnam"] [aliceFile] [] malformedFile
      rfl rfl⟩

/-- C1 counterexample: a `.json` file whose top-level parsed JSON value is
the number `0` (not a list) aborts the whole scan with an uncaught
exception — the following file is never processed — while the same run
without it completes; so a non-list top-level value does not "contribute
zero records with processing continuing". -/
theorem c1_nonlist_counterexample :
    runFiles "Vietnam" initState [numberFile, aliceFile] = Except.error () ∧
    runFiles "Vietnam" initState [aliceFile] =
      Except.ok { names := [PyVal.str "Alice"],
                  ids_or_names := [PyVal.str "1"],
                  name_to_ids := [(PyVal.str "Alice", [PyVal.str "1"])],
                  id_to_names := [(PyVal.str "1", [PyVal.str "Alice"])],
                  no_name_has_id := [] } :=
  ⟨rfl, rfl⟩

/-- C1 (amended): a file whose contents fail to parse (malformed JSON
syntax) contributes zero records and never aborts the scan — removing it
from any position leaves the run unchanged; but a syntactically valid
non-list top-level value can abort the run (see the counterexample). -/
theorem c1_parse_failure_skip (c : String) (st : AggState)
    (pre post : List FileEntry) (f : FileEntry)
    (h : f.content = Option.none) :
    runFiles c st (pre ++ f :: post) = runFiles c st (pre ++ post) ∧
    processFile c st f = Except.ok st :=
  ⟨runFiles_skip_none c st pre post f h, processFile_none c st f h⟩

/-- Witness for `c1_parse_failure_skip`. -/
theorem c1_parse_failure_skip_witness :
    malformedFile.content = Option.none ∧
    (runFiles "Vietnam" initState ([] ++ malformedFile :: [aliceFile]) =
       runFiles "Vietnam" initState ([] ++ [aliceFile]) ∧
     processFile "Vietnam" initState malformedFile = Except.ok initState) :=
  ⟨rfl,
    c1_parse_failure_skip "Vietnam" initState [] [aliceFile] malformedFile rfl⟩

/-- C5 counterexample: in a Vietnam record with the `id` field present but
equal to `0` and name `"Alice"`, set A receives `"Alice"`, not the present
`id` — so "id when the field is present" is not what the code does. -/
theorem c5_id_present_counterexample :
    (processRecord "Vietnam" initState zeroIdRec).map
        (fun st => st.ids_or_names) = Except.ok [PyVal.str "Alice"] ∧
    Smem (PyVal.int 0) [PyVal.str "Alice"] = false :=
  ⟨rfl, rfl⟩

/-- C5 (amended): for a country-matching, non-raising record, the set-A
update uses the `id` field when it is truthy, else the `name` field when
truthy, else nothing (Python truthiness, not mere presence). -/
theorem c5_setA_truthy_rule (c : String) (st : AggState) (inv : PyVal)
    (h1 : matchesC c inv = true) (h2 : recordBad c inv = false) :
    (processRecord c st inv).map (fun s => s.ids_or_names) =
      Except.ok (setUpd st.ids_or_names
        (if truthy (idOf inv) then Option.some (idOf inv)
         else if truthy (nameOf inv) then Option.some (nameOf inv)
         else Option.none)) := by
  rw [processRecord_eq, if_neg (by simp [h2])]
  have ha : aContrib c inv =
      (if truthy (idOf inv) then Option.some (idOf inv)
       else if truthy (nameOf inv) then Option.some (nameOf inv)
       else Option.none) := by
    unfold aContrib uidOf
    by_cases hi : truthy (idOf inv) = true
    · simp [h1, hi]
    · by_cases hn : truthy (nameOf inv) = true
      · simp [h1, hi, hn]
      · simp [h1, hi, hn]
  simp [pureStep, Except.map, ha]

/-- Witness for `c5_setA_truthy_rule` on the zero-id record. -/
theorem c5_setA_truthy_rule_witness :
    matchesC "Vietnam" zeroIdRec = true ∧
    recordBad "Vietnam" zeroIdRec = false ∧
    (processRecord "Vietnam" initState zeroIdRec).map
        (fun s => s.ids_or_names) =
      Except.ok (setUpd initState.ids_or_names
        (if truthy (idOf zeroIdRec) then Option.some (idOf zeroIdRec)
         else if truthy (nameOf zeroIdRec) then Option.some (nameOf zeroIdRec)
         else Option.none)) :=
  ⟨rfl, rfl, c5_setA_truthy_rule "Vietnam" initState zeroIdRec rfl rfl⟩

/-- A country-matching dict record determines a dict country value whose
title equals the target. -/
theorem matchesC_char {c : String} {flds : List (String × PyVal)}
    (hm : matchesC c (PyVal.dict flds) = true) :
    ∃ cf, (if truthy (dictGet flds "country") then dictGet flds "country"
           else PyVal.dict []) = PyVal.dict cf ∧
      pyEqStr (dictGet cf "title") c = true := by
  unfold matchesC at hm
  dsimp only at hm
  cases hcv : (if truthy (dictGet flds "country") then dictGet flds "country"
               else PyVal.dict []) with
  | dict cf =>
    rw [hcv] at hm
    exact ⟨cf, rfl, hm⟩
  | none => rw [hcv] at hm; simp at hm
  | bool b => rw [hcv] at hm; simp at hm
  | int n => rw [hcv] at hm; simp at hm
  | str s => rw [hcv] at hm; simp at hm
  | list l => rw [hcv] at hm; simp at hm

/-- C10: for a country-matching record, falsy field values act as missing:
a `name` equal to `""` is not added to set B nor to the cross-reference
maps, and a truthy `id` on such a record goes to the orphan list; an `id`
equal to `0` or `""` makes set A fall back to the name, and such a record
is never appended to the orphan list. -/
theorem c10_falsy_semantics (c : String) (st : AggState)
    (flds : List (String × PyVal))
    (hm : matchesC c (PyVal.dict flds) = true) :
    (∀ v, dictGet flds "name" = PyVal.str "" → dictGet flds "id" = v →
      truthy v = true → hashable v = true →
      processRecord c st (PyVal.dict flds) =
        Except.ok { st with
          ids_or_names := insertS st.ids_or_names v
          no_name_has_id := st.no_name_has_id ++ [v] }) ∧
    (∀ n, dictGet flds "name" = PyVal.str n → n ≠ "" →
      (dictGet flds "id" = PyVal.int 0 ∨ dictGet flds "id" = PyVal.str "") →
      processRecord c st (PyVal.dict flds) =
        Except.ok { st with
          names := insertS st.names (PyVal.str n)
          ids_or_names := insertS st.ids_or_names (PyVal.str n) }) := by
  obtain ⟨cf, hcv, ht⟩ := matchesC_char hm
  constructor
  · intro v hname hid htr hha
    unfold processRecord
    dsimp only
    rw [hcv]
    dsimp only
    rw [if_pos ht, hname, hid]
    simp [htr, hha, addSet,
      (show truthy (PyVal.str "") = false from rfl)]
    rfl
  · intro n hname hnne hid
    unfold processRecord
    dsimp only
    rw [hcv]
    dsimp only
    rw [if_pos ht, hname]
    have htn : truthy (PyVal.str n) = true := by simp [truthy, hnne]
    rcases hid with hid | hid <;>
      rw [hid] <;>
      simp [htn, addSet,
        (show truthy (PyVal.int 0) = false from rfl),
        (show truthy (PyVal.str "") = false from rfl),
        (show hashable (PyVal.str n) = true from rfl)] <;>
      rfl

/-- Witness for `c10_falsy_semantics`: both parts at concrete records. -/
theorem c10_falsy_semantics_witness :
    (matchesC "Vietnam" (PyVal.dict [("id", PyVal.str "9"),
        ("name", PyVal.str ""), ("country", vnTitle)]) = true ∧
     processRecord "Vietnam" initState
        (PyVal.dict [("id", PyVal.str "9"), ("name", PyVal.str ""),
          ("country", vnTitle)]) =
       Except.ok { initState with
         ids_or_names := insertS initState.ids_or_names (PyVal.str "9")
         no_name_has_id := initState.no_name_has_id ++ [PyVal.str "9"] }) ∧
    (matchesC "Vietnam" (PyVal.dict [("id", PyVal.int 0),
        ("name", PyVal.str "Ann"), ("country", vnTitle)]) = true ∧
     processRecord "Vietnam" initState
        (PyVal.dict [("id", PyVal.int 0), ("name", PyVal.str "Ann"),
          ("country", vnTitle)]) =
       Except.ok { initState with
         names := insertS initState.names (PyVal.str "Ann")
         ids_or_names := insertS initState.ids_or_names (PyVal.str "Ann") }) :=
  ⟨⟨rfl,
    (c10_falsy_semantics "Vietnam" initState
      [("id", PyVal.str "9"), ("name", PyVal.str ""), ("country", vnTitle)]
      rfl).1 (PyVal.str "9") rfl rfl rfl rfl⟩,
   ⟨rfl,
    (c10_falsy_semantics "Vietnam" initState
      [("id", PyVal.int 0), ("name", PyVal.str "Ann"), ("country", vnTitle)]
      rfl).2 "Ann" rfl (by decide) (Or.inl rfl)⟩⟩

/-- C2 counterexample: two Vietnam records with distinct names sharing one
id yield set A of size 1 and set B of size 2, so `|A| ≥ |B|` fails. -/
theorem c2_size_counterexample :
    (runFiles "Vietnam" initState [sharedIdFile]).map
        (fun st => (st.ids_or_names.length, st.names.length)) =
      Except.ok (1, 2) ∧ ¬(2 : Nat) ≤ 1 :=
  ⟨rfl, by decide⟩

/-- C2 (amended): when no country-matching record carries both a truthy
name and a truthy id (no cross-reference pairing is recorded), every named
record contributes its name to set A as well, and `|B| ≤ |A|`. -/
theorem c2_sizes_amended (c : String) (recs : List PyVal) (st : AggState)
    (hrun : runRecords c initState recs = Except.ok st)
    (hnp : ∀ inv ∈ recs, niContrib c inv = Option.none) :
    st.names.length ≤ st.ids_or_names.length := by
  rw [runRecords_eq] at hrun
  by_cases hbad : recs.any (recordBad c) = true
  · rw [if_pos hbad] at hrun
    exact absurd hrun (by simp)
  · rw [if_neg hbad] at hrun
    injection hrun with hst
    subst hst
    have hgood : ∀ inv ∈ recs, recordBad c inv = false := by
      intro inv hinv
      have hfalse : recs.any (recordBad c) = false := by
        simpa using hbad
      simpa using List.any_eq_false.mp hfalse inv hinv
    rw [foldl_pureStep_names, foldl_pureStep_ion]
    show (List.foldl insertS initState.names _).length ≤ _
    have hinit : initState.names = ([] : List PyVal) := rfl
    have hinit2 : initState.ids_or_names = ([] : List PyVal) := rfl
    rw [hinit, hinit2]
    apply length_le_of_smem_sub
    · exact pyNd_foldl_insertS List.Pairwise.nil
    · apply allH_foldl_insertS
      · intro x hx
        exact absurd hx (List.not_mem_nil x)
      · intro v hv
        rcases List.mem_filterMap.mp hv with ⟨inv, hinv, hbc⟩
        exact (contribs_hashable (hgood inv hinv)).2.1 v hbc
    · exact pyNd_foldl_insertS List.Pairwise.nil
    · intro x hx
      rcases smem_foldl_insertS.mp hx with hempty | ⟨v, hv, hxv⟩
      · simp [Smem] at hempty
      · rcases List.mem_filterMap.mp hv with ⟨inv, hinv, hbc⟩
        have ha : aContrib c inv = Option.some v :=
          bContrib_sub_aContrib (hnp inv hinv) hbc
        exact smem_foldl_insertS.mpr
          (Or.inr ⟨v, List.mem_filterMap.mpr ⟨inv, hinv, ha⟩, hxv⟩)

/-- Witness for `c2_sizes_amended` on a single name-only record. -/
theorem c2_sizes_amended_witness :
    runRecords "Vietnam" initState [bobOnlyRec] = Except.ok c2WitState ∧
    niContrib "Vietnam" bobOnlyRec = Option.none ∧
    c2WitState.names.length ≤ c2WitState.ids_or_names.length :=
  ⟨rfl, rfl,
    c2_sizes_amended "Vietnam" [bobOnlyRec] c2WitState rfl
      (fun inv h => by rw [List.mem_singleton.mp h]; rfl)⟩

/-! ## Sorting, set construction, and permutation lemmas for the report -/

theorem setOfE_eq (l : List PyVal) :
    setOfE l = if l.all hashable then Except.ok (l.foldl insertS [])
               else Except.error () := by
  have gen : ∀ acc : List PyVal,
      l.foldlM addSet acc =
        if l.all hashable then Except.ok (l.foldl insertS acc)
        else Except.error () := by
    induction l with
    | nil => intro acc; rfl
    | cons v vs ih =>
      intro acc
      rw [List.foldlM_cons]
      by_cases hv : hashable v = true
      · have hstep : addSet acc v = Except.ok (insertS acc v) := by
          unfold addSet; rw [if_pos hv]
        rw [hstep]
        show vs.foldlM addSet (insertS acc v) = _
        rw [ih (insertS acc v)]
        simp [List.all_cons, hv, List.foldl_cons]
      · have hstep : addSet acc v = Except.error () := by
          unfold addSet; rw [if_neg hv]
        rw [hstep]
        have hall : (v :: vs).all hashable = false := by
          simp [List.all_cons, hv]
        rw [hall]
        rfl
  exact gen []

theorem pySortE_ok {l r : List PyVal} (h : pySortE l = Except.ok r) :
    List.Pairwise pyKeyLe r ∧ r.Perm l := by
  unfold pySortE at h
  by_cases hs : l.all isStrV = true
  · rw [if_pos hs] at h
    injection h with h
    subst h
    exact ⟨(List.sorted_insertionSort strKeyLe l).imp (fun hab => Or.inl hab),
      List.perm_insertionSort strKeyLe l⟩
  · rw [if_neg hs] at h
    by_cases hn : l.all isNumV = true
    · rw [if_pos hn] at h
      injection h with h
      subst h
      exact ⟨(List.sorted_insertionSort numKeyLe l).imp (fun hab => Or.inr hab),
        List.perm_insertionSort numKeyLe l⟩
    · rw [if_neg hn] at h
      exact Except.noConfusion h

theorem sortPairs_ok {pairs out : List (PyVal × List PyVal)}
    (h : sortPairs pairs = Except.ok out) :
    ∀ q ∈ out, List.Pairwise pyKeyLe q.2 := by
  induction pairs generalizing out with
  | nil =>
    have hout : out = [] := by
      injection h with h
      exact h.symm
    subst hout
    intro q hq
    exact absurd hq (List.not_mem_nil q)
  | cons p ps ih =>
    unfold sortPairs at h ih
    rw [List.mapM_cons] at h
    cases hsr : pySortE p.2 with
    | error e =>
      rw [hsr] at h
      exact Except.noConfusion
        (show Except.error e = Except.ok out from h)
    | ok s =>
      rw [hsr] at h
      cases hrest : ps.mapM (fun q => (pySortE q.2).map (fun t => (q.1, t))) with
      | error e =>
        rw [hrest] at h
        exact Except.noConfusion
          (show Except.error e = Except.ok out from h)
      | ok rest =>
        rw [hrest] at h
        have hout : out = (p.1, s) :: rest := by
          injection (show Except.ok ((p.1, s) :: rest) = Except.ok out from h)
            with h2
          exact h2.symm
        subst hout
        intro q hq
        rcases List.mem_cons.mp hq with rfl | hq
        · exact (pySortE_ok hsr).1
        · exact ih hrest q hq

theorem pyNd_perm {l1 l2 : List PyVal} (hp : l1.Perm l2) (h : pyNd l1) :
    pyNd l2 :=
  (List.Perm.pairwise_iff
    (fun hxy => Bool.eq_false_iff.mpr
      (fun habs => Bool.eq_false_iff.mp hxy (pyEqH_symm habs))) hp).mp h

/-- C6 counterexample: with two multi-id names first inserted in the order
Bob, Alice, the diagnostic lines are printed in that insertion order, which
is not sorted — the listing order is not sorted for reproducibility. -/
theorem c6_unsorted_counterexample :
    reportKeys (progMain [argv0, "Vietnam"] [bobMultiFile, aliceMultiFile]) =
      [PyVal.str "Bob", PyVal.str "Alice"] ∧
    ¬List.Pairwise strKeyLe [PyVal.str "Bob", PyVal.str "Alice"] :=
  ⟨rfl, by decide⟩

/-- C6 (amended): within each diagnostic line the listed ids/names are
sorted, and the printed orphan line is sorted, duplicate-free, and contains
exactly the Python-distinct orphan ids; the diagnostic lines themselves,
however, appear in first-insertion order rather than sorted order. -/
theorem c6_sorted_amended (c : String) (st : AggState) (r : Report)
    (h : buildReport c st = Except.ok r) :
    (∀ p ∈ r.namesMultiIds, List.Pairwise pyKeyLe p.2) ∧
    (∀ p ∈ r.idsMultiNames, List.Pairwise pyKeyLe p.2) ∧
    (∀ l, r.orphanLine = Option.some l →
      List.Pairwise pyKeyLe l ∧ pyNd l ∧
      ∀ x, (Smem x l = true ↔ Smem x st.no_name_has_id = true)) := by
  unfold buildReport at h
  cases h1 : sortPairs (st.name_to_ids.filter (fun p => 1 < p.2.length)) with
  | error e =>
    rw [h1] at h
    exact Except.noConfusion
      (show (Except.error e : Except Unit Report) = Except.ok r from h)
  | ok nmi =>
    rw [h1] at h
    cases h2 : sortPairs (st.id_to_names.filter (fun p => 1 < p.2.length)) with
    | error e =>
      rw [h2] at h
      exact Except.noConfusion
        (show (Except.error e : Except Unit Report) = Except.ok r from h)
    | ok imn =>
      rw [h2] at h
      by_cases hemp : st.no_name_has_id.isEmpty = true
      · simp only [hemp, reduceIte] at h
        have hr : r =
            { country := c, countA := st.ids_or_names.length,
              countB := st.names.length, namesMultiIds := nmi,
              idsMultiNames := imn, orphanLine := Option.none } := by
          have h3 := show Except.ok
              ({ country := c, countA := st.ids_or_names.length,
                 countB := st.names.length, namesMultiIds := nmi,
                 idsMultiNames := imn,
                 orphanLine := Option.none } : Report) = Except.ok r from h
          injection h3 with h4
          exact h4.symm
        subst hr
        refine ⟨sortPairs_ok h1, sortPairs_ok h2, ?_⟩
        intro l hl
        exact Option.noConfusion hl
      · have hemp2 : st.no_name_has_id.isEmpty = false := by
          simpa using hemp
        simp only [hemp2] at h
        replace h := show
            (setOfE st.no_name_has_id >>= fun s =>
              pySortE s >>= fun srt =>
                pure { country := c, countA := st.ids_or_names.length,
                       countB := st.names.length, namesMultiIds := nmi,
                       idsMultiNames := imn,
                       orphanLine := Option.some srt }) = Except.ok r from h
        cases hset : setOfE st.no_name_has_id with
        | error e =>
          rw [hset] at h
          exact Except.noConfusion
            (show (Except.error e : Except Unit Report) = Except.ok r from h)
        | ok s =>
          rw [hset] at h
          replace h := show
              (pySortE s >>= fun srt =>
                pure { country := c, countA := st.ids_or_names.length,
                       countB := st.names.length, namesMultiIds := nmi,
                       idsMultiNames := imn,
                       orphanLine := Option.some srt }) = Except.ok r from h
          cases hsort : pySortE s with
          | error e =>
            rw [hsort] at h
            exact Except.noConfusion
              (show (Except.error e : Except Unit Report) = Except.ok r from h)
          | ok srt =>
            rw [hsort] at h
            have hr : r =
                { country := c, countA := st.ids_or_names.length,
                  countB := st.names.length, namesMultiIds := nmi,
                  idsMultiNames := imn, orphanLine := Option.some srt } := by
              have h3 := show Except.ok
                  ({ country := c, countA := st.ids_or_names.length,
                     countB := st.names.length, namesMultiIds := nmi,
                     idsMultiNames := imn,
                     orphanLine := Option.some srt } : Report) =
                  Except.ok r from h
              injection h3 with h4
              exact h4.symm
            subst hr
            refine ⟨sortPairs_ok h1, sortPairs_ok h2, ?_⟩
            intro l hl
            have hls : srt = l := by
              injection hl
            subst hls
            obtain ⟨hpair, hperm⟩ := pySortE_ok hsort
            rw [setOfE_eq] at hset
            by_cases hall : st.no_name_has_id.all hashable = true
            · rw [if_pos hall] at hset
              have hs : st.no_name_has_id.foldl insertS [] = s := by
                injection hset
              have hnd : pyNd s := by
                rw [← hs]
                exact pyNd_foldl_insertS List.Pairwise.nil
              refine ⟨hpair, pyNd_perm hperm.symm hnd, ?_⟩
              intro x
              constructor
              · intro hx
                rcases smem_iff.mp hx with ⟨y, hy, hxy⟩
                have hys : y ∈ s := hperm.mem_iff.mp hy
                have hxs : Smem x s = true := smem_iff.mpr ⟨y, hys, hxy⟩
                rw [← hs] at hxs
                rcases smem_foldl_insertS.mp hxs with hnil | ⟨v, hv, hxv⟩
                · simp [Smem] at hnil
                · exact smem_iff.mpr ⟨v, hv, hxv⟩
              · intro hx
                rcases smem_iff.mp hx with ⟨v, hv, hxv⟩
                have hxs : Smem x (st.no_name_has_id.foldl insertS []) = true :=
                  smem_foldl_insertS.mpr (Or.inr ⟨v, hv, hxv⟩)
                rw [hs] at hxs
                rcases smem_iff.mp hxs with ⟨y, hy, hxy⟩
                exact smem_iff.mpr ⟨y, hperm.mem_iff.mpr hy, hxy⟩
            · rw [if_neg hall] at hset
              exact Except.noConfusion hset

/-- Witness for `c6_sorted_amended` on a concrete state. -/
theorem c6_sorted_amended_witness :
    buildReport "X" c6St = Except.ok c6Rep ∧
    List.Pairwise pyKeyLe [PyVal.str "1", PyVal.str "3"] ∧
    pyNd [PyVal.str "1", PyVal.str "3"] :=
  ⟨rfl,
   ((c6_sorted_amended "X" c6St c6Rep rfl).2.2
     [PyVal.str "1", PyVal.str "3"] rfl).1,
   ((c6_sorted_amended "X" c6St c6Rep rfl).2.2
     [PyVal.str "1", PyVal.str "3"] rfl).2.1⟩

/-! ## Diagnostic-map membership and permutation invariance -/

theorem mmem_mapIns {k v a b : PyVal} {m : List (PyVal × List PyVal)} :
    Mmem k v (mapIns m a b) = true ↔
      (Mmem k v m = true ∨ (pyEqH k a = true ∧ pyEqH v b = true)) := by
  unfold mapIns
  by_cases hin : m.any (fun p => pyEqH a p.1) = true
  · rw [if_pos hin]
    unfold Mmem
    constructor
    · intro h
      rcases List.any_eq_true.mp h with ⟨q, hq, hcheck⟩
      rcases List.mem_map.mp hq with ⟨p, hp, hqp⟩
      by_cases hap : pyEqH a p.1 = true
      · rw [if_pos hap] at hqp
        subst hqp
        simp only [Bool.and_eq_true] at hcheck
        obtain ⟨hk, hs⟩ := hcheck
        rcases smem_insertS.mp hs with hs2 | hvb
        · exact Or.inl (List.any_eq_true.mpr ⟨p, hp, by simp [hk, hs2]⟩)
        · exact Or.inr ⟨pyEqH_trans hk (pyEqH_symm hap), hvb⟩
      · rw [if_neg hap] at hqp
        subst hqp
        exact Or.inl (List.any_eq_true.mpr ⟨p, hp, hcheck⟩)
    · rintro (h | ⟨hka, hvb⟩)
      · rcases List.any_eq_true.mp h with ⟨p, hp, hcheck⟩
        simp only [Bool.and_eq_true] at hcheck
        obtain ⟨hk, hs⟩ := hcheck
        apply List.any_eq_true.mpr
        by_cases hap : pyEqH a p.1 = true
        · refine ⟨(p.1, insertS p.2 b),
            List.mem_map.mpr ⟨p, hp, by rw [if_pos hap]⟩, ?_⟩
          simp only [Bool.and_eq_true]
          exact ⟨hk, smem_insertS.mpr (Or.inl hs)⟩
        · refine ⟨p, List.mem_map.mpr ⟨p, hp, by rw [if_neg hap]⟩, ?_⟩
          simp only [Bool.and_eq_true]
          exact ⟨hk, hs⟩
      · rcases List.any_eq_true.mp hin with ⟨q, hq, haq⟩
        apply List.any_eq_true.mpr
        refine ⟨(q.1, insertS q.2 b),
          List.mem_map.mpr ⟨q, hq, by rw [if_pos haq]⟩, ?_⟩
        simp only [Bool.and_eq_true]
        exact ⟨pyEqH_trans hka haq, smem_insertS.mpr (Or.inr hvb)⟩
  · rw [if_neg hin]
    unfold Mmem
    rw [List.any_append]
    simp only [Bool.or_eq_true, List.any_cons, List.any_nil, Bool.or_false,
      Bool.and_eq_true]
    constructor
    · rintro (h | ⟨hk, hs⟩)
      · exact Or.inl h
      · rcases smem_iff.mp hs with ⟨y, hy, hvy⟩
        simp only [List.mem_singleton] at hy
        subst hy
        exact Or.inr ⟨hk, hvy⟩
    · rintro (h | ⟨hk, hvb⟩)
      · exact Or.inl h
      · exact Or.inr ⟨hk, smem_iff.mpr ⟨b, List.mem_singleton_self b, hvb⟩⟩

theorem mmem_foldl_mapIns {k v : PyVal} {pairs : List (PyVal × PyVal)}
    {m : List (PyVal × List PyVal)} :
    Mmem k v (pairs.foldl (fun acc kv => mapIns acc kv.1 kv.2) m) = true ↔
      (Mmem k v m = true ∨
        ∃ kv ∈ pairs, pyEqH k kv.1 = true ∧ pyEqH v kv.2 = true) := by
  induction pairs generalizing m with
  | nil => simp
  | cons q qs ih =>
    simp only [List.foldl_cons, ih, mmem_mapIns, List.mem_cons]
    constructor
    · rintro ((h | ⟨hk, hv⟩) | ⟨kv, hkv, hp⟩)
      · exact Or.inl h
      · exact Or.inr ⟨q, Or.inl rfl, hk, hv⟩
      · exact Or.inr ⟨kv, Or.inr hkv, hp⟩
    · rintro (h | ⟨kv, (rfl | hkv), hp⟩)
      · exact Or.inl (Or.inl h)
      · exact Or.inl (Or.inr hp)
      · exact Or.inr ⟨kv, hkv, hp⟩

theorem foldl_insertS_length_perm {l1 l2 : List PyVal} (hp : l1.Perm l2)
    (hh : ∀ v ∈ l1, hashable v = true) :
    (l1.foldl insertS []).length = (l2.foldl insertS []).length := by
  have hh2 : ∀ v ∈ l2, hashable v = true := fun v hv =>
    hh v (hp.mem_iff.mpr hv)
  have hnil : allH ([] : List PyVal) := fun x hx =>
    absurd hx (List.not_mem_nil x)
  have hsub1 : ∀ x, Smem x (l1.foldl insertS []) = true →
      Smem x (l2.foldl insertS []) = true := by
    intro x hx
    rcases smem_foldl_insertS.mp hx with hn | ⟨v, hv, hxv⟩
    · simp [Smem] at hn
    · exact smem_foldl_insertS.mpr (Or.inr ⟨v, hp.mem_iff.mp hv, hxv⟩)
  have hsub2 : ∀ x, Smem x (l2.foldl insertS []) = true →
      Smem x (l1.foldl insertS []) = true := by
    intro x hx
    rcases smem_foldl_insertS.mp hx with hn | ⟨v, hv, hxv⟩
    · simp [Smem] at hn
    · exact smem_foldl_insertS.mpr (Or.inr ⟨v, hp.mem_iff.mpr hv, hxv⟩)
  apply Nat.le_antisymm
  · exact length_le_of_smem_sub (pyNd_foldl_insertS List.Pairwise.nil)
      (allH_foldl_insertS hnil hh) (pyNd_foldl_insertS List.Pairwise.nil) hsub1
  · exact length_le_of_smem_sub (pyNd_foldl_insertS List.Pairwise.nil)
      (allH_foldl_insertS hnil hh2) (pyNd_foldl_insertS List.Pairwise.nil) hsub2

/-- C4 counterexample: enumerating the same two files in the two possible
orders produces the diagnostic name lines in different orders (dict
insertion order), so the printed diagnostic listing is not left unchanged
by permuting the files. -/
theorem c4_order_counterexample :
    reportKeys (progMain [argv0, "Vietnam"] [bobMultiFile, aliceMultiFile]) =
      [PyVal.str "Bob", PyVal.str "Alice"] ∧
    reportKeys (progMain [argv0, "Vietnam"] [aliceMultiFile, bobMultiFile]) =
      [PyVal.str "Alice", PyVal.str "Bob"] ∧
    ([PyVal.str "Bob", PyVal.str "Alice"] ≠
      [PyVal.str "Alice", PyVal.str "Bob"]) := by
  refine ⟨rfl, rfl, ?_⟩
  intro hcontra
  injection hcontra with h1 h2
  injection h1 with h3
  exact absurd h3 (by decide)

/-- C4 (amended): permuting the enumerated files leaves the run outcome
(crash or success), both counts, the orphan-set membership, and the
membership of both cross-reference maps unchanged; only the order of the
diagnostic lines (dict insertion order) may change. -/
theorem c4_order_amended (c : String) (fs1 fs2 : List FileEntry)
    (hperm : fs1.Perm fs2) :
    ((runFiles c initState fs1 = Except.error ()) ↔
      (runFiles c initState fs2 = Except.error ())) ∧
    ∀ st1 st2, runFiles c initState fs1 = Except.ok st1 →
      runFiles c initState fs2 = Except.ok st2 →
      st1.ids_or_names.length = st2.ids_or_names.length ∧
      st1.names.length = st2.names.length ∧
      (∀ x, Smem x st1.no_name_has_id = true ↔
        Smem x st2.no_name_has_id = true) ∧
      (∀ k v, Mmem k v st1.name_to_ids = true ↔
        Mmem k v st2.name_to_ids = true) ∧
      (∀ k v, Mmem k v st1.id_to_names = true ↔
        Mmem k v st2.id_to_names = true) := by
  have hany : fs1.any (fileBad c) = fs2.any (fileBad c) := by
    cases h2 : fs2.any (fileBad c) with
    | true =>
      rcases List.any_eq_true.mp h2 with ⟨f, hf, hb⟩
      exact List.any_eq_true.mpr ⟨f, hperm.mem_iff.mpr hf, hb⟩
    | false =>
      cases h1 : fs1.any (fileBad c) with
      | false => rfl
      | true =>
        rcases List.any_eq_true.mp h1 with ⟨f, hf, hb⟩
        have h3 : fs2.any (fileBad c) = true :=
          List.any_eq_true.mpr ⟨f, hperm.mem_iff.mp hf, hb⟩
        rw [h2] at h3
        exact absurd h3 (by simp)
  constructor
  · rw [runFiles_eq, runFiles_eq, hany]
    by_cases hb : fs2.any (fileBad c) = true
    · rw [if_pos hb, if_pos hb]
    · rw [if_neg hb, if_neg hb]
      constructor <;> intro hcontra <;> exact Except.noConfusion hcontra
  · intro st1 st2 h1 h2
    rw [runFiles_eq] at h1 h2
    by_cases hb : fs1.any (fileBad c) = true
    · rw [if_pos hb] at h1
      exact absurd h1 (by simp)
    · have hb2 : ¬fs2.any (fileBad c) = true := by
        rw [← hany]
        exact hb
      rw [if_neg hb] at h1
      rw [if_neg hb2] at h2
      injection h1 with h1e
      injection h2 with h2e
      subst h1e
      subst h2e
      have hrp : (fs1.flatMap fileRecs).Perm (fs2.flatMap fileRecs) :=
        hperm.flatMap_right fileRecs
      have hgood1 : ∀ r ∈ fs1.flatMap fileRecs, recordBad c r = false := by
        intro r hr
        rcases List.mem_flatMap.mp hr with ⟨f, hf, hrf⟩
        have hfb : fileBad c f = false := by
          have hall : fs1.any (fileBad c) = false := by
            simpa using hb
          simpa using List.any_eq_false.mp hall f hf
        exact recs_good_of_fileBad_false hfb r hrf
      have hinit_ion : initState.ids_or_names = ([] : List PyVal) := rfl
      have hinit_nm : initState.names = ([] : List PyVal) := rfl
      have hinit_or : initState.no_name_has_id = ([] : List PyVal) := rfl
      refine ⟨?_, ?_, ?_, ?_, ?_⟩
      · rw [foldl_pureStep_ion, foldl_pureStep_ion, hinit_ion]
        apply foldl_insertS_length_perm (hrp.filterMap (aContrib c))
        intro v hv
        rcases List.mem_filterMap.mp hv with ⟨inv, hinv, ha⟩
        exact (contribs_hashable (hgood1 inv hinv)).1 v ha
      · rw [foldl_pureStep_names, foldl_pureStep_names, hinit_nm]
        apply foldl_insertS_length_perm (hrp.filterMap (bContrib c))
        intro v hv
        rcases List.mem_filterMap.mp hv with ⟨inv, hinv, hbc⟩
        exact (contribs_hashable (hgood1 inv hinv)).2.1 v hbc
      · intro x
        rw [foldl_pureStep_orph, foldl_pureStep_orph, hinit_or]
        simp only [List.nil_append]
        constructor
        · intro hx
          rcases smem_iff.mp hx with ⟨y, hy, hxy⟩
          exact smem_iff.mpr
            ⟨y, ((hrp.filterMap (oContrib c)).mem_iff).mp hy, hxy⟩
        · intro hx
          rcases smem_iff.mp hx with ⟨y, hy, hxy⟩
          exact smem_iff.mpr
            ⟨y, ((hrp.filterMap (oContrib c)).mem_iff).mpr hy, hxy⟩
      · intro k v
        rw [foldl_pureStep_nti, foldl_pureStep_nti]
        rw [mmem_foldl_mapIns, mmem_foldl_mapIns]
        have hminit : Mmem k v initState.name_to_ids = false := rfl
        rw [hminit]
        constructor
        · rintro (h | ⟨kv, hkv, hp⟩)
          · exact absurd h (by simp)
          · exact Or.inr
              ⟨kv, ((hrp.filterMap (niContrib c)).mem_iff).mp hkv, hp⟩
        · rintro (h | ⟨kv, hkv, hp⟩)
          · exact absurd h (by simp)
          · exact Or.inr
              ⟨kv, ((hrp.filterMap (niContrib c)).mem_iff).mpr hkv, hp⟩
      · intro k v
        rw [foldl_pureStep_itn, foldl_pureStep_itn]
        rw [mmem_foldl_mapIns, mmem_foldl_mapIns]
        have hminit : Mmem k v initState.id_to_names = false := rfl
        rw [hminit]
        constructor
        · rintro (h | ⟨kv, hkv, hp⟩)
          · exact absurd h (by simp)
          · exact Or.inr
              ⟨kv, ((hrp.filterMap (inContrib c)).mem_iff).mp hkv, hp⟩
        · rintro (h | ⟨kv, hkv, hp⟩)
          · exact absurd h (by simp)
          · exact Or.inr
              ⟨kv, ((hrp.filterMap (inContrib c)).mem_iff).mpr hkv, hp⟩

/-- Witness for `c4_order_amended` on the two-file swap. -/
theorem c4_order_witness :
    ([bobMultiFile, aliceMultiFile].Perm [aliceMultiFile, bobMultiFile]) ∧
    runFiles "Vietnam" initState [bobMultiFile, aliceMultiFile] =
      Except.ok c4St1 ∧
    runFiles "Vietnam" initState [aliceMultiFile, bobMultiFile] =
      Except.ok c4St2 ∧
    c4St1.ids_or_names.length = c4St2.ids_or_names.length ∧
    c4St1.names.length = c4St2.names.length :=
  ⟨List.Perm.swap aliceMultiFile bobMultiFile [], rfl, rfl,
   ((c4_order_amended "Vietnam" [bobMultiFile, aliceMultiFile]
       [aliceMultiFile, bobMultiFile]
       (List.Perm.swap aliceMultiFile bobMultiFile [])).2
     c4St1 c4St2 rfl rfl).1,
   ((c4_order_amended "Vietnam" [bobMultiFile, aliceMultiFile]
       [aliceMultiFile, bobMultiFile]
       (List.Perm.swap aliceMultiFile bobMultiFile [])).2
     c4St1 c4St2 rfl rfl).2.1⟩

end VDI
